import Mathlib

/-!
Verification of the mouse-binding registry and drag-coordination state of
`xgbutil` (mousebind state file).

The registry state of `XUtil` consists of two Go maps guarded by one lock:
`mousebinds : map[MouseBindKey][]MouseBindCallback` and
`mousegrabs : map[MouseBindKey]int`, plus the drag slot
(`mouseDrag : bool`, `mouseDragStep`, `mouseDragEnd : MouseDragFun`).

Embedding choices:
* `mousebinds` is an association list `List (MouseBindKey × List C)`;
  map read is `alookup` (first entry wins), map write is `aupdate`
  (replace-or-append), map delete of every key satisfying a predicate is
  `List.filter`.  The callback type `C` is an opaque type parameter:
  callbacks are never compared or inspected by the registry.
* `mousegrabs` is a total function `MouseBindKey → Int`; a Go `map[K]int`
  read of an absent key yields `0`, and no operation of the source ever
  iterates this map or distinguishes an absent entry from a `0` entry, so
  the default-`0` total function is an exact model of its observable
  behaviour.
* the drag step/end slots hold opaque handles (`Option D`, `none` = Go
  `nil`), since the registry never calls or compares them.
* locks are dropped: every operation of the source holds the single
  registry lock for its whole body, so the sequential semantics modelled
  here is exactly the per-operation semantics of the source.
* `RunMouseBindCallbacks` loops `cb.Run(xu, event)` over the snapshot of
  the chain; its observable behaviour is the sequence of invocations, so
  it is modelled as the invocation trace: the list of `(callback, event)`
  pairs in invocation order.
-/

/-- `xproto.Window` (an X resource id); only compared for equality here. -/
abbrev Window := Nat

/-- `xproto.Button` (a byte); only compared for equality here. -/
abbrev Button := Nat

/-- MouseBindKey is the type of the key in the map of mouse bindings:
the tuple (event type, window id, modifier, button). -/
structure MouseBindKey where
  Evtype : Int
  Win : Window
  Mod : Nat
  Button : Button
deriving DecidableEq, Repr

/-- Go map read on an association list: the value of the first entry with
the given key, `none` when the key is absent. -/
def alookup {K V : Type} [DecidableEq K] (l : List (K × V)) (k : K) : Option V :=
  match l with
  | [] => none
  | (k', v) :: t => if k' = k then some v else alookup t k

/-- Go map write on an association list: replace the value of the first
entry with the given key, or append a new entry when the key is absent. -/
def aupdate {K V : Type} [DecidableEq K] (l : List (K × V)) (k : K) (v : V) :
    List (K × V) :=
  match l with
  | [] => [(k, v)]
  | (k', v') :: t => if k' = k then (k, v) :: t else (k', v') :: aupdate t k v

/-- The loop condition shared by `ConnectedMouseBind` and
`DetachMouseBindWindow`: `key.Evtype == evtype && key.Win == win`. -/
def matchKey (k : MouseBindKey) (evtype : Int) (win : Window) : Bool :=
  k.Evtype == evtype && k.Win == win

/-- The state of `XUtil` relevant to the mousebind package: the two maps
`mousebinds` / `mousegrabs` and the drag slot.  `C` is the opaque type of
`MouseBindCallback` handles, `D` the opaque type of `MouseDragFun`
handles. -/
@[ext]
structure XUtil (C D : Type) where
  mousebinds : List (MouseBindKey × List C)
  mousegrabs : MouseBindKey → Int
  mouseDrag : Bool
  mouseDragStep : Option D
  mouseDragEnd : Option D

namespace XUtil

variable {C D E : Type}

/-- `AttachMouseBindCallback` associates an (event, window, mods, button)
with a callback: allocate an empty chain when the key is absent, append
the callback, and increment the grab count of the key by one. -/
def AttachMouseBindCallback (xu : XUtil C D) (evtype : Int) (win : Window)
    (mods : Nat) (button : Button) (f : C) : XUtil C D :=
  let key : MouseBindKey := ⟨evtype, win, mods, button⟩
  -- "Do we need to allocate?": an absent key reads as the empty chain,
  -- which the source installs before appending.
  let chain := (alookup xu.mousebinds key).getD []
  { xu with
    mousebinds := aupdate xu.mousebinds key (chain ++ [f])
    mousegrabs := fun k => if k = key then xu.mousegrabs k + 1 else xu.mousegrabs k }

/-- `MouseBindKeys` returns a copy of all the keys in the mousebinds map. -/
def MouseBindKeys (xu : XUtil C D) : List MouseBindKey :=
  xu.mousebinds.map (·.1)

/-- `MouseBindCallbacks` returns a (copy of the) slice of callbacks for a
particular key; a nil slice, i.e. the empty chain, when the key is absent. -/
def MouseBindCallbacks (xu : XUtil C D) (key : MouseBindKey) : List C :=
  (alookup xu.mousebinds key).getD []

/-- `RunMouseBindCallbacks` executes every callback corresponding to a
particular event/window/mod/button tuple, in chain order, passing the raw
event to each: modelled as the trace of `cb.Run(xu, event)` invocations. -/
def RunMouseBindCallbacks (xu : XUtil C D) (event : E) (evtype : Int)
    (win : Window) (mods : Nat) (button : Button) : List (C × E) :=
  (xu.MouseBindCallbacks ⟨evtype, win, mods, button⟩).map (fun cb => (cb, event))

/-- `ConnectedMouseBind` checks whether any registered key has the given
event type and window, scanning all mouse binds. -/
def ConnectedMouseBind (xu : XUtil C D) (evtype : Int) (win : Window) : Bool :=
  xu.mousebinds.any (fun kv => matchKey kv.1 evtype win)

/-- `DetachMouseBindWindow` removes all callbacks associated with a
particular window and event type; for each matching key it decrements the
grab counter by the length of the removed chain and deletes the chain.
The loop body acts once on each (distinct) matching key of the map, so its
net effect on the grab map is pointwise: a key that matches and is present
in `mousebinds` loses `len(mousebinds[key])` grabs, every other key is
untouched. -/
def DetachMouseBindWindow (xu : XUtil C D) (evtype : Int) (win : Window) :
    XUtil C D :=
  { xu with
    mousebinds := xu.mousebinds.filter (fun kv => !matchKey kv.1 evtype win)
    mousegrabs := fun k =>
      if matchKey k evtype win ∧ (alookup xu.mousebinds k).isSome then
        xu.mousegrabs k - ((alookup xu.mousebinds k).getD []).length
      else xu.mousegrabs k }

/-- `MouseBindGrabs` returns the number of grabs on a particular
event/window/mods/button combination; `0` if the key does not exist. -/
def MouseBindGrabs (xu : XUtil C D) (evtype : Int) (win : Window) (mods : Nat)
    (button : Button) : Int :=
  xu.mousegrabs ⟨evtype, win, mods, button⟩

/-- `MouseDrag` is true when a mouse drag is in progress. -/
def MouseDrag (xu : XUtil C D) : Bool :=
  xu.mouseDrag

/-- `MouseDragSet` sets whether a mouse drag is in progress. -/
def MouseDragSet (xu : XUtil C D) (dragging : Bool) : XUtil C D :=
  { xu with mouseDrag := dragging }

/-- `MouseDragStep` returns the function associated with each drag step. -/
def MouseDragStep (xu : XUtil C D) : Option D :=
  xu.mouseDragStep

/-- `MouseDragStepSet` sets the function associated with the drag step. -/
def MouseDragStepSet (xu : XUtil C D) (f : Option D) : XUtil C D :=
  { xu with mouseDragStep := f }

/-- `MouseDragEnd` returns the function associated with the drag end. -/
def MouseDragEnd (xu : XUtil C D) : Option D :=
  xu.mouseDragEnd

/-- `MouseDragEndSet` sets the function associated with the drag end. -/
def MouseDragEndSet (xu : XUtil C D) (f : Option D) : XUtil C D :=
  { xu with mouseDragEnd := f }

end XUtil

/-- The grab-count invariant: for every key, the grab count equals the
length of the key's callback chain (an absent chain counting as length
`0`).  It holds in the initial state (both maps empty) and, as proved
below, is preserved by every registry operation. -/
def GrabInv {C D : Type} (xu : XUtil C D) : Prop :=
  ∀ k : MouseBindKey,
    xu.mousegrabs k = (((alookup xu.mousebinds k).getD []).length : Int)

/-- The state of a fresh `XUtil`: both maps empty, no drag in progress. -/
def emptyXUtil : XUtil Nat Nat :=
  { mousebinds := []
    mousegrabs := fun _ => 0
    mouseDrag := false
    mouseDragStep := none
    mouseDragEnd := none }

section AssocLemmas

variable {K V : Type} [DecidableEq K]

@[simp]
lemma alookup_nil (k : K) : alookup ([] : List (K × V)) k = none := rfl

@[simp]
lemma alookup_cons (k' : K) (v : V) (t : List (K × V)) (k : K) :
    alookup ((k', v) :: t) k = if k' = k then some v else alookup t k := rfl

@[simp]
lemma alookup_aupdate_self (l : List (K × V)) (k : K) (v : V) :
    alookup (aupdate l k v) k = some v := by
  induction l with
  | nil => simp [aupdate]
  | cons hd t ih =>
    obtain ⟨k', v'⟩ := hd
    by_cases h : k' = k
    · simp [aupdate, h]
    · simp [aupdate, h, ih]

lemma alookup_aupdate_ne (l : List (K × V)) (k k' : K) (v : V) (h : k' ≠ k) :
    alookup (aupdate l k v) k' = alookup l k' := by
  have h' : k ≠ k' := Ne.symm h
  induction l with
  | nil => simp [aupdate, h']
  | cons hd t ih =>
    obtain ⟨k'', v''⟩ := hd
    by_cases hk : k'' = k
    · subst hk
      simp [aupdate, h']
    · simp only [aupdate, if_neg hk, alookup_cons]
      by_cases hk' : k'' = k'
      · simp [hk']
      · simp [hk', ih]

lemma alookup_isSome_iff (l : List (K × V)) (k : K) :
    (alookup l k).isSome ↔ ∃ v, (k, v) ∈ l := by
  induction l with
  | nil => simp
  | cons hd t ih =>
    obtain ⟨k', v'⟩ := hd
    by_cases h : k' = k
    · subst h
      simp
    · simp only [alookup_cons, if_neg h, List.mem_cons, ih]
      constructor
      · rintro ⟨v, hv⟩
        exact ⟨v, Or.inr hv⟩
      · rintro ⟨v, hv | hv⟩
        · cases hv
          exact absurd rfl h
        · exact ⟨v, hv⟩

lemma alookup_filter_key (l : List (K × V)) (p : K → Bool) (k : K) :
    alookup (l.filter (fun kv => !p kv.1)) k =
      if p k then none else alookup l k := by
  induction l with
  | nil => simp
  | cons hd t ih =>
    obtain ⟨k', v'⟩ := hd
    by_cases hp : p k'
    · by_cases hk : k' = k
      · subst hk
        simp [List.filter, hp, ih]
      · simp [List.filter, hp, ih, hk]
    · by_cases hk : k' = k
      · subst hk
        simp [List.filter, hp]
      · simp [List.filter, hp, ih, hk]

omit [DecidableEq K] in
lemma filter_key_eq_self (l : List (K × V)) (p : K → Bool)
    (h : ∀ kv ∈ l, ¬ p kv.1) : l.filter (fun kv => !p kv.1) = l := by
  induction l with
  | nil => rfl
  | cons hd t ih =>
    have hhd : ¬ p hd.1 := h hd (List.mem_cons_self hd t)
    simp only [List.filter, Bool.not_eq_true', hhd, Bool.not_false]
    exact congrArg (hd :: ·) (ih fun kv hkv => h kv (List.mem_cons_of_mem hd hkv))

end AssocLemmas

@[simp]
lemma matchKey_iff (k : MouseBindKey) (evtype : Int) (win : Window) :
    matchKey k evtype win = true ↔ k.Evtype = evtype ∧ k.Win = win := by
  simp [matchKey]

namespace XUtil

variable {C D E : Type}

/-- The chain of the attached key after `AttachMouseBindCallback`: the old
chain with the new callback appended last. -/
lemma attach_chain_self (xu : XUtil C D) (evtype : Int) (win : Window)
    (mods : Nat) (button : Button) (f : C) :
    MouseBindCallbacks (xu.AttachMouseBindCallback evtype win mods button f)
        ⟨evtype, win, mods, button⟩ =
      MouseBindCallbacks xu ⟨evtype, win, mods, button⟩ ++ [f] := by
  simp [MouseBindCallbacks, AttachMouseBindCallback]

/-- The chain of any other key is untouched by `AttachMouseBindCallback`. -/
lemma attach_binds_ne (xu : XUtil C D) (evtype : Int) (win : Window)
    (mods : Nat) (button : Button) (f : C) (k : MouseBindKey)
    (h : k ≠ ⟨evtype, win, mods, button⟩) :
    alookup (xu.AttachMouseBindCallback evtype win mods button f).mousebinds k =
      alookup xu.mousebinds k := by
  simpa [AttachMouseBindCallback] using
    alookup_aupdate_ne xu.mousebinds _ k _ h

/-- The grab count of the attached key increases by exactly one. -/
lemma attach_grabs_self (xu : XUtil C D) (evtype : Int) (win : Window)
    (mods : Nat) (button : Button) (f : C) :
    (xu.AttachMouseBindCallback evtype win mods button f).mousegrabs
        ⟨evtype, win, mods, button⟩ =
      xu.mousegrabs ⟨evtype, win, mods, button⟩ + 1 := by
  simp [AttachMouseBindCallback]

/-- The grab count of any other key is untouched by
`AttachMouseBindCallback`. -/
lemma attach_grabs_ne (xu : XUtil C D) (evtype : Int) (win : Window)
    (mods : Nat) (button : Button) (f : C) (k : MouseBindKey)
    (h : k ≠ ⟨evtype, win, mods, button⟩) :
    (xu.AttachMouseBindCallback evtype win mods button f).mousegrabs k =
      xu.mousegrabs k := by
  simp [AttachMouseBindCallback, h]

end XUtil

/-- `AttachMouseBindCallback` preserves the grab-count invariant. -/
lemma grabInv_attach {C D : Type} {xu : XUtil C D} (h : GrabInv xu)
    (evtype : Int) (win : Window) (mods : Nat) (button : Button) (f : C) :
    GrabInv (xu.AttachMouseBindCallback evtype win mods button f) := by
  intro k
  by_cases hk : k = ⟨evtype, win, mods, button⟩
  · have hc := XUtil.attach_chain_self xu evtype win mods button f
    simp only [XUtil.MouseBindCallbacks] at hc
    rw [hk, XUtil.attach_grabs_self, hc, h ⟨evtype, win, mods, button⟩]
    push_cast [List.length_append, List.length_singleton]
    omega
  · rw [XUtil.attach_grabs_ne xu evtype win mods button f k hk,
      XUtil.attach_binds_ne xu evtype win mods button f k hk]
    exact h k

/-- `DetachMouseBindWindow` preserves the grab-count invariant. -/
lemma grabInv_detach {C D : Type} {xu : XUtil C D} (h : GrabInv xu)
    (evtype : Int) (win : Window) :
    GrabInv (xu.DetachMouseBindWindow evtype win) := by
  intro k
  simp only [XUtil.DetachMouseBindWindow,
    alookup_filter_key xu.mousebinds (fun k => matchKey k evtype win) k]
  by_cases hm : matchKey k evtype win
  · cases hs : alookup xu.mousebinds k with
    | none =>
      simp only [hm, hs, Option.isSome_none, Bool.false_eq_true, and_false,
        if_false, if_true, Option.getD_none, List.length_nil, Nat.cast_zero]
      simpa [hs] using h k
    | some chain =>
      simp only [hm, hs, Option.isSome_some, and_true, if_true,
        Option.getD_some]
      rw [h k, hs]
      simp
  · simp only [hm, Bool.false_eq_true, false_and, if_false]
    simpa [hm] using h k

/-- The empty state satisfies the grab-count invariant. -/
lemma grabInv_empty : GrabInv emptyXUtil := fun _ => rfl

/-- C1: for every binding key the grab count equals the callback-chain
length whenever both entries exist; the (strong form of the) invariant is
preserved by `AttachMouseBindCallback` and `DetachMouseBindWindow`;
`AttachMouseBindCallback` increments the grab count and the chain length
together by one, and `DetachMouseBindWindow` decrements the grab count of
each matching key by exactly the length of the chain it removes, never
resetting it independently. -/
theorem grab_invariant_ops {C D : Type} (xu : XUtil C D) (evtype : Int)
    (win : Window) (mods : Nat) (button : Button) (f : C) (h : GrabInv xu) :
    (∀ (k : MouseBindKey) (chain : List C),
        alookup xu.mousebinds k = some chain →
        xu.mousegrabs k = (chain.length : Int)) ∧
    GrabInv (xu.AttachMouseBindCallback evtype win mods button f) ∧
    GrabInv (xu.DetachMouseBindWindow evtype win) ∧
    ((xu.AttachMouseBindCallback evtype win mods button f).mousegrabs
          ⟨evtype, win, mods, button⟩ =
        xu.mousegrabs ⟨evtype, win, mods, button⟩ + 1 ∧
      ((xu.AttachMouseBindCallback evtype win mods button f).MouseBindCallbacks
            ⟨evtype, win, mods, button⟩).length =
        (xu.MouseBindCallbacks ⟨evtype, win, mods, button⟩).length + 1) ∧
    (∀ k : MouseBindKey, k.Evtype = evtype → k.Win = win →
        (xu.DetachMouseBindWindow evtype win).mousegrabs k =
          xu.mousegrabs k - (((alookup xu.mousebinds k).getD []).length : Int)) := by
  refine ⟨?_, grabInv_attach h evtype win mods button f,
    grabInv_detach h evtype win, ⟨?_, ?_⟩, ?_⟩
  · intro k chain hc
    have := h k
    rw [hc] at this
    simpa using this
  · exact XUtil.attach_grabs_self xu evtype win mods button f
  · rw [XUtil.attach_chain_self xu evtype win mods button f]
    simp
  · intro k hE hW
    have hm : matchKey k evtype win = true := by
      simp [matchKey_iff, hE, hW]
    simp only [XUtil.DetachMouseBindWindow]
    cases hs : alookup xu.mousebinds k with
    | none => simp [hm, hs]
    | some chain => simp [hm, hs]

/-- Witness for C1 at the fresh state with key `(4, 1, 0, 1)` and
callback `7`. -/
theorem grab_invariant_ops_witness :
    GrabInv emptyXUtil ∧
    ((∀ (k : MouseBindKey) (chain : List Nat),
        alookup emptyXUtil.mousebinds k = some chain →
        emptyXUtil.mousegrabs k = (chain.length : Int)) ∧
    GrabInv (emptyXUtil.AttachMouseBindCallback 4 1 0 1 7) ∧
    GrabInv (emptyXUtil.DetachMouseBindWindow 4 1) ∧
    ((emptyXUtil.AttachMouseBindCallback 4 1 0 1 7).mousegrabs ⟨4, 1, 0, 1⟩ =
        emptyXUtil.mousegrabs ⟨4, 1, 0, 1⟩ + 1 ∧
      ((emptyXUtil.AttachMouseBindCallback 4 1 0 1 7).MouseBindCallbacks
            ⟨4, 1, 0, 1⟩).length =
        (emptyXUtil.MouseBindCallbacks ⟨4, 1, 0, 1⟩).length + 1) ∧
    (∀ k : MouseBindKey, k.Evtype = 4 → k.Win = 1 →
        (emptyXUtil.DetachMouseBindWindow 4 1).mousegrabs k =
          emptyXUtil.mousegrabs k -
            (((alookup emptyXUtil.mousebinds k).getD []).length : Int))) :=
  ⟨grabInv_empty, grab_invariant_ops emptyXUtil 4 1 0 1 7 grabInv_empty⟩

/-- The connectivity scan succeeds iff some registered key has the given
event type and window. -/
lemma connected_eq_true_iff {C D : Type} (xu : XUtil C D) (evtype : Int)
    (win : Window) :
    xu.ConnectedMouseBind evtype win = true ↔
      ∃ k : MouseBindKey, k.Evtype = evtype ∧ k.Win = win ∧
        (alookup xu.mousebinds k).isSome = true := by
  unfold XUtil.ConnectedMouseBind
  rw [List.any_eq_true]
  constructor
  · rintro ⟨kv, hmem, hm⟩
    rw [matchKey_iff] at hm
    exact ⟨kv.1, hm.1, hm.2,
      (alookup_isSome_iff _ _).2 ⟨kv.2, by simpa using hmem⟩⟩
  · rintro ⟨k, hE, hW, hs⟩
    obtain ⟨v, hv⟩ := (alookup_isSome_iff _ _).1 hs
    exact ⟨(k, v), hv, by simp [matchKey, hE, hW]⟩

/-- C6: `ConnectedMouseBind(evtype, win)` is true iff at least one
registered key has exactly that event type and window, regardless of the
key's modifier and button fields. -/
theorem connected_iff_exists {C D : Type} (xu : XUtil C D) (evtype : Int)
    (win : Window) :
    xu.ConnectedMouseBind evtype win = true ↔
      ∃ k : MouseBindKey, k.Evtype = evtype ∧ k.Win = win ∧
        (alookup xu.mousebinds k).isSome = true :=
  connected_eq_true_iff xu evtype win

/-- C9: `MouseDragSet` sets exactly the drag-in-progress flag: afterwards
`MouseDrag` returns the new value while the step-function slot and the
end-function slot are unchanged. -/
theorem mouseDragSet_only_flag {C D : Type} (xu : XUtil C D) (b : Bool) :
    (xu.MouseDragSet b).MouseDrag = b ∧
    (xu.MouseDragSet b).MouseDragStep = xu.MouseDragStep ∧
    (xu.MouseDragSet b).MouseDragEnd = xu.MouseDragEnd :=
  ⟨rfl, rfl, rfl⟩

/-- C10: `AttachMouseBindCallback` mutates only the entries of its own
key: every other key keeps its chain and its grab count, and the attached
key's chain is the old chain with the new callback appended last. -/
theorem attach_frame {C D : Type} (xu : XUtil C D) (evtype : Int)
    (win : Window) (mods : Nat) (button : Button) (f : C)
    (k' : MouseBindKey) (h : k' ≠ ⟨evtype, win, mods, button⟩) :
    alookup (xu.AttachMouseBindCallback evtype win mods button f).mousebinds k' =
      alookup xu.mousebinds k' ∧
    (xu.AttachMouseBindCallback evtype win mods button f).mousegrabs k' =
      xu.mousegrabs k' ∧
    (xu.AttachMouseBindCallback evtype win mods button f).MouseBindCallbacks
        ⟨evtype, win, mods, button⟩ =
      xu.MouseBindCallbacks ⟨evtype, win, mods, button⟩ ++ [f] :=
  ⟨XUtil.attach_binds_ne xu evtype win mods button f k' h,
    XUtil.attach_grabs_ne xu evtype win mods button f k' h,
    XUtil.attach_chain_self xu evtype win mods button f⟩

/-- Witness for C10: attaching under key `(4, 1, 0, 1)` leaves the
distinct key `(5, 1, 0, 1)` untouched. -/
theorem attach_frame_witness :
    (⟨5, 1, 0, 1⟩ : MouseBindKey) ≠ ⟨4, 1, 0, 1⟩ ∧
    (alookup (emptyXUtil.AttachMouseBindCallback 4 1 0 1 7).mousebinds
        ⟨5, 1, 0, 1⟩ = alookup emptyXUtil.mousebinds ⟨5, 1, 0, 1⟩ ∧
      (emptyXUtil.AttachMouseBindCallback 4 1 0 1 7).mousegrabs ⟨5, 1, 0, 1⟩ =
        emptyXUtil.mousegrabs ⟨5, 1, 0, 1⟩ ∧
      (emptyXUtil.AttachMouseBindCallback 4 1 0 1 7).MouseBindCallbacks
          ⟨4, 1, 0, 1⟩ =
        emptyXUtil.MouseBindCallbacks ⟨4, 1, 0, 1⟩ ++ [7]) :=
  ⟨by decide, attach_frame emptyXUtil 4 1 0 1 7 ⟨5, 1, 0, 1⟩ (by decide)⟩

/-- The roles of the parameters of a drag step/end function type. -/
inductive DragParamRole where
  | context
  | anchorRootX
  | anchorRootY
  | rootX
  | rootY
  | eventX
  | eventY
deriving DecidableEq, Repr

/-- `MouseDragFun` is the kind of function used on each dragging step and
at the end of a drag; this is its parameter list, transcribed from the
source declaration `func(xu *XUtil, rootX, rootY, eventX, eventY int)`. -/
def MouseDragFunParams : List DragParamRole :=
  [.context, .rootX, .rootY, .eventX, .eventY]

/-- The step/end parameter list as the spec describes it: `(contextHandle,
anchorRootX, anchorRootY, currentRootX, currentRootY, currentEventX,
currentEventY)`. -/
def MouseDragFunParamsSpec : List DragParamRole :=
  [.context, .anchorRootX, .anchorRootY, .rootX, .rootY, .eventX, .eventY]

/-- C5 counterexample: the `MouseDragFun` type does not carry the drag's
anchor root coordinates — its parameters are only the context handle and
the current event's root-relative and window-relative coordinates. -/
theorem mouseDragFun_no_anchor :
    ¬(DragParamRole.anchorRootX ∈ MouseDragFunParams ∧
      DragParamRole.anchorRootY ∈ MouseDragFunParams) := by
  decide

/-- C5 (amended): the drag step/end function type carries exactly the
spec's parameter list with the two anchor parameters removed: the context
handle, the current root-relative X/Y and the current event X/Y. -/
theorem mouseDragFun_params_current_only :
    MouseDragFunParams = MouseDragFunParamsSpec.filter
      (fun r => !(r == DragParamRole.anchorRootX ||
        r == DragParamRole.anchorRootY)) := by
  decide

/-- A sequence of `AttachMouseBindCallback` calls under one fixed key,
attaching the given callbacks in order. -/
def attachList {C D : Type} (xu : XUtil C D) (evtype : Int) (win : Window)
    (mods : Nat) (button : Button) (fs : List C) : XUtil C D :=
  fs.foldl (fun s f => s.AttachMouseBindCallback evtype win mods button f) xu

/-- Attaching a list of callbacks appends it to the key's chain and adds
its length to the key's grab count. -/
lemma attachList_chain_grabs {C D : Type} (xu : XUtil C D) (evtype : Int)
    (win : Window) (mods : Nat) (button : Button) (fs : List C) :
    (attachList xu evtype win mods button fs).MouseBindCallbacks
        ⟨evtype, win, mods, button⟩ =
      xu.MouseBindCallbacks ⟨evtype, win, mods, button⟩ ++ fs ∧
    (attachList xu evtype win mods button fs).mousegrabs
        ⟨evtype, win, mods, button⟩ =
      xu.mousegrabs ⟨evtype, win, mods, button⟩ + (fs.length : Int) := by
  induction fs generalizing xu with
  | nil => simp [attachList]
  | cons f t ih =>
    have ht := ih (xu.AttachMouseBindCallback evtype win mods button f)
    have hstep : attachList xu evtype win mods button (f :: t) =
        attachList (xu.AttachMouseBindCallback evtype win mods button f)
          evtype win mods button t := rfl
    rw [hstep]
    refine ⟨?_, ?_⟩
    · rw [ht.1, XUtil.attach_chain_self]
      simp
    · rw [ht.2, XUtil.attach_grabs_self]
      push_cast [List.length_cons]
      ring

/-- C2: starting from a key with no prior registration (absent chain,
zero grab count), `N` attaches under that key — duplicates allowed, since
no duplicate detection is performed — leave a chain of length `N` and a
grab count of `N`. -/
theorem attachN_counts {C D : Type} (xu : XUtil C D) (evtype : Int)
    (win : Window) (mods : Nat) (button : Button) (fs : List C)
    (h1 : alookup xu.mousebinds ⟨evtype, win, mods, button⟩ = none)
    (h2 : xu.mousegrabs ⟨evtype, win, mods, button⟩ = 0) :
    ((attachList xu evtype win mods button fs).MouseBindCallbacks
        ⟨evtype, win, mods, button⟩).length = fs.length ∧
    (attachList xu evtype win mods button fs).MouseBindGrabs
        evtype win mods button = (fs.length : Int) := by
  have h := attachList_chain_grabs xu evtype win mods button fs
  constructor
  · rw [h.1]
    simp [XUtil.MouseBindCallbacks, h1]
  · simp only [XUtil.MouseBindGrabs]
    rw [h.2, h2, zero_add]

/-- Witness for C2: two attaches of the same callback `7` under fresh key
`(4, 1, 0, 1)` give chain length 2 and grab count 2. -/
theorem attachN_counts_witness :
    alookup emptyXUtil.mousebinds ⟨4, 1, 0, 1⟩ = none ∧
    emptyXUtil.mousegrabs ⟨4, 1, 0, 1⟩ = 0 ∧
    (((attachList emptyXUtil 4 1 0 1 [7, 7]).MouseBindCallbacks
        ⟨4, 1, 0, 1⟩).length = 2 ∧
      (attachList emptyXUtil 4 1 0 1 [7, 7]).MouseBindGrabs 4 1 0 1 = 2) :=
  ⟨rfl, rfl, attachN_counts emptyXUtil 4 1 0 1 [7, 7] rfl rfl⟩

/-- C3: `DetachMouseBindWindow(evtype, win)` removes exactly the keys
whose event type and window match, regardless of their modifier and
button fields: afterwards each such key has no chain and grab count 0
(under the grab invariant), while every key with a different event type
or window keeps its chain and its grab count. -/
theorem detach_exact {C D : Type} (xu : XUtil C D) (evtype : Int)
    (win : Window) (h : GrabInv xu) :
    (∀ k : MouseBindKey, k.Evtype = evtype → k.Win = win →
        alookup (xu.DetachMouseBindWindow evtype win).mousebinds k = none ∧
        (xu.DetachMouseBindWindow evtype win).MouseBindGrabs
          evtype win k.Mod k.Button = 0) ∧
    (∀ k : MouseBindKey, ¬(k.Evtype = evtype ∧ k.Win = win) →
        alookup (xu.DetachMouseBindWindow evtype win).mousebinds k =
          alookup xu.mousebinds k ∧
        (xu.DetachMouseBindWindow evtype win).mousegrabs k =
          xu.mousegrabs k) := by
  constructor
  · intro k hE hW
    have hm : matchKey k evtype win = true := by
      simp [matchKey_iff, hE, hW]
    have hkey : (⟨evtype, win, k.Mod, k.Button⟩ : MouseBindKey) = k := by
      rw [← hE, ← hW]
    constructor
    · simp only [XUtil.DetachMouseBindWindow,
        alookup_filter_key xu.mousebinds (fun kk => matchKey kk evtype win) k,
        hm]
      simp
    · simp only [XUtil.MouseBindGrabs, hkey, XUtil.DetachMouseBindWindow]
      cases hs : alookup xu.mousebinds k with
      | none =>
        have h0 := h k
        rw [hs] at h0
        simpa [hm, hs] using h0
      | some chain =>
        have h0 := h k
        rw [hs] at h0
        simp [hm, hs, h0]
  · intro k hnm
    have hm2 : matchKey k evtype win = false := by
      rw [← Bool.not_eq_true, matchKey_iff]
      exact hnm
    constructor
    · simp only [XUtil.DetachMouseBindWindow,
        alookup_filter_key xu.mousebinds (fun kk => matchKey kk evtype win) k,
        hm2]
      simp
    · simp only [XUtil.DetachMouseBindWindow]
      simp [hm2]

/-- Witness for C3 at a state holding one binding under key
`(4, 1, 0, 1)`, detaching event type 4 on window 1. -/
theorem detach_exact_witness :
    GrabInv (emptyXUtil.AttachMouseBindCallback 4 1 0 1 7) ∧
    ((∀ k : MouseBindKey, k.Evtype = 4 → k.Win = 1 →
        alookup ((emptyXUtil.AttachMouseBindCallback 4 1 0 1
            7).DetachMouseBindWindow 4 1).mousebinds k = none ∧
        ((emptyXUtil.AttachMouseBindCallback 4 1 0 1
            7).DetachMouseBindWindow 4 1).MouseBindGrabs 4 1 k.Mod k.Button = 0) ∧
      (∀ k : MouseBindKey, ¬(k.Evtype = 4 ∧ k.Win = 1) →
          alookup ((emptyXUtil.AttachMouseBindCallback 4 1 0 1
              7).DetachMouseBindWindow 4 1).mousebinds k =
            alookup (emptyXUtil.AttachMouseBindCallback 4 1 0 1 7).mousebinds k ∧
          ((emptyXUtil.AttachMouseBindCallback 4 1 0 1
              7).DetachMouseBindWindow 4 1).mousegrabs k =
            (emptyXUtil.AttachMouseBindCallback 4 1 0 1 7).mousegrabs k)) :=
  ⟨grabInv_attach grabInv_empty 4 1 0 1 7,
    detach_exact (emptyXUtil.AttachMouseBindCallback 4 1 0 1 7) 4 1
      (grabInv_attach grabInv_empty 4 1 0 1 7)⟩

/-- C4: dispatch invokes, for the key computed from its arguments, exactly
the callbacks registered under that key, each once, in attach order, each
receiving the raw event; attaching `A` then `B` under a fresh key and
dispatching that key runs `A` before `B`. -/
theorem run_in_attach_order {C D E : Type} (xu : XUtil C D) (evtype : Int)
    (win : Window) (mods : Nat) (button : Button) (A B : C) (ev : E)
    (h : alookup xu.mousebinds ⟨evtype, win, mods, button⟩ = none) :
    ((xu.AttachMouseBindCallback evtype win mods button
          A).AttachMouseBindCallback evtype win mods button
          B).RunMouseBindCallbacks ev evtype win mods button =
      [(A, ev), (B, ev)] ∧
    ∀ s : XUtil C D, s.RunMouseBindCallbacks ev evtype win mods button =
      (s.MouseBindCallbacks ⟨evtype, win, mods, button⟩).map
        (fun cb => (cb, ev)) := by
  refine ⟨?_, fun s => rfl⟩
  have h1 := XUtil.attach_chain_self xu evtype win mods button A
  have h2 := XUtil.attach_chain_self
    (xu.AttachMouseBindCallback evtype win mods button A) evtype win mods button B
  simp only [XUtil.RunMouseBindCallbacks, h2, h1]
  simp [XUtil.MouseBindCallbacks, h]

/-- Witness for C4: attaching callbacks `1` then `2` under fresh key
`(4, 1, 0, 1)` and dispatching event `9` runs `1` before `2`. -/
theorem run_in_attach_order_witness :
    alookup emptyXUtil.mousebinds ⟨4, 1, 0, 1⟩ = none ∧
    (((emptyXUtil.AttachMouseBindCallback 4 1 0 1
          1).AttachMouseBindCallback 4 1 0 1
          2).RunMouseBindCallbacks 9 4 1 0 1 = [(1, 9), (2, 9)] ∧
      ∀ s : XUtil Nat Nat, s.RunMouseBindCallbacks 9 4 1 0 1 =
        (s.MouseBindCallbacks ⟨4, 1, 0, 1⟩).map (fun cb => (cb, 9))) :=
  ⟨rfl, run_in_attach_order emptyXUtil 4 1 0 1 1 2 9 rfl⟩

/-- C7: absence degrades to empty/zero/false rather than an error: when no
key with the given event type and window is registered (and the state
satisfies the grab invariant), the chain of any key with those components
is empty, its grab count is 0, the connectivity check is false, and
dispatch invokes no callbacks. -/
theorem absent_key_degrades {C D E : Type} (xu : XUtil C D) (evtype : Int)
    (win : Window) (mods : Nat) (button : Button) (ev : E)
    (hinv : GrabInv xu)
    (h : ∀ k : MouseBindKey, k.Evtype = evtype → k.Win = win →
        alookup xu.mousebinds k = none) :
    xu.MouseBindCallbacks ⟨evtype, win, mods, button⟩ = [] ∧
    xu.MouseBindGrabs evtype win mods button = 0 ∧
    xu.ConnectedMouseBind evtype win = false ∧
    xu.RunMouseBindCallbacks ev evtype win mods button = [] := by
  have hk := h ⟨evtype, win, mods, button⟩ rfl rfl
  have hc : xu.MouseBindCallbacks ⟨evtype, win, mods, button⟩ = [] := by
    simp [XUtil.MouseBindCallbacks, hk]
  refine ⟨hc, ?_, ?_, ?_⟩
  · have h0 := hinv ⟨evtype, win, mods, button⟩
    rw [hk] at h0
    simpa [XUtil.MouseBindGrabs] using h0
  · rw [← Bool.not_eq_true, connected_eq_true_iff]
    rintro ⟨k, hE, hW, hs⟩
    rw [h k hE hW] at hs
    simp at hs
  · simp [XUtil.RunMouseBindCallbacks, hc]

/-- Witness for C7 at the fresh state, key `(4, 1, 0, 1)`, event `9`. -/
theorem absent_key_degrades_witness :
    GrabInv emptyXUtil ∧
    (∀ k : MouseBindKey, k.Evtype = 4 → k.Win = 1 →
        alookup emptyXUtil.mousebinds k = none) ∧
    (emptyXUtil.MouseBindCallbacks ⟨4, 1, 0, 1⟩ = [] ∧
      emptyXUtil.MouseBindGrabs 4 1 0 1 = 0 ∧
      emptyXUtil.ConnectedMouseBind 4 1 = false ∧
      emptyXUtil.RunMouseBindCallbacks 9 4 1 0 1 = []) :=
  ⟨grabInv_empty, fun _ _ _ => rfl,
    absent_key_degrades emptyXUtil 4 1 0 1 9 grabInv_empty fun _ _ _ => rfl⟩

/-- C8: detaching a window/event type with no remaining matching bindings
is a no-op and idempotent: one call and a second call both leave the state
unchanged, and the grab count of every key with that event type and window
stays 0 (under the grab invariant). -/
theorem detach_idempotent {C D : Type} (xu : XUtil C D) (evtype : Int)
    (win : Window) (hinv : GrabInv xu)
    (h : ∀ k : MouseBindKey, k.Evtype = evtype → k.Win = win →
        alookup xu.mousebinds k = none) :
    xu.DetachMouseBindWindow evtype win = xu ∧
    (xu.DetachMouseBindWindow evtype win).DetachMouseBindWindow evtype win =
      xu ∧
    (∀ (mods : Nat) (button : Button),
        (xu.DetachMouseBindWindow evtype win).MouseBindGrabs
          evtype win mods button = 0) := by
  have hno : ∀ kv ∈ xu.mousebinds, ¬ matchKey kv.1 evtype win = true := by
    intro kv hmem hmt
    rw [matchKey_iff] at hmt
    have hs := (alookup_isSome_iff xu.mousebinds kv.1).2 ⟨kv.2, by simpa using hmem⟩
    rw [h kv.1 hmt.1 hmt.2] at hs
    simp at hs
  have heq : xu.DetachMouseBindWindow evtype win = xu := by
    have hb : xu.mousebinds.filter (fun kv => !matchKey kv.1 evtype win) =
        xu.mousebinds :=
      filter_key_eq_self xu.mousebinds (fun kk => matchKey kk evtype win) hno
    apply XUtil.ext
    · simpa [XUtil.DetachMouseBindWindow] using hb
    · funext k
      simp only [XUtil.DetachMouseBindWindow]
      by_cases hm : matchKey k evtype win = true
      · rw [matchKey_iff] at hm
        rw [h k hm.1 hm.2]
        simp
      · simp [hm]
    · rfl
    · rfl
    · rfl
  refine ⟨heq, by rw [heq]; exact heq, ?_⟩
  intro mods button
  rw [heq]
  have h0 := hinv ⟨evtype, win, mods, button⟩
  rw [h ⟨evtype, win, mods, button⟩ rfl rfl] at h0
  simpa [XUtil.MouseBindGrabs] using h0

/-- Witness for C8 at the fresh state (no bindings at all), detaching
event type 4 on window 1 twice. -/
theorem detach_idempotent_witness :
    GrabInv emptyXUtil ∧
    (∀ k : MouseBindKey, k.Evtype = 4 → k.Win = 1 →
        alookup emptyXUtil.mousebinds k = none) ∧
    (emptyXUtil.DetachMouseBindWindow 4 1 = emptyXUtil ∧
      (emptyXUtil.DetachMouseBindWindow 4 1).DetachMouseBindWindow 4 1 =
        emptyXUtil ∧
      (∀ (mods : Nat) (button : Button),
          (emptyXUtil.DetachMouseBindWindow 4 1).MouseBindGrabs
            4 1 mods button = 0)) :=
  ⟨grabInv_empty, fun _ _ _ => rfl,
    detach_idempotent emptyXUtil 4 1 grabInv_empty fun _ _ _ => rfl⟩
